import Mathlib

/-!
Verification development for the `web2app` CLI (Noobyetpro/web2app).

The repository ships two entry points, `src/bin/web2app-cli.js` and
`src/bin/web2app-cli.cjs`, sharing most of their logic: a subprocess runner
(`runCommand`), a redirect-following downloader (`downloadWithRedirect`),
a Neutralino CLI locator (`findNeutralinoCommand` / `getNeuVersion`), a
runtime provisioner (`ensureNeutralinoBinaries` / `downloadNeutralinoDirectly`
/ `getMissingNeutralinoBinaries`), and a build-output inventory
(`listExecutables`).

This file gives a shallow embedding of those functions and proves properties
about them.  External effects (the child process, the HTTP responses, the
file system, the environment) are passed in explicitly as values; pure
control flow and string manipulation are translated directly from the
JavaScript source.  JavaScript string primitives (`trim`, `startsWith`,
truthiness of strings, …) are re-implemented on `List Char` so that every
definition evaluates inside the kernel.
-/

namespace Web2App

/-! ### JavaScript string primitives -/

/-- JavaScript `a || b` on strings: the empty string is falsy. -/
def jsOr (a b : String) : String := if a = "" then b else a

/-- JavaScript `a || b` where each operand is a string or `null`
(`none`); the empty string is falsy. -/
def jsOrStr (a b : Option String) : Option String :=
  match a with
  | some s => if s = "" then b else some s
  | none => b

/-- JavaScript `s.startsWith(pre)`. -/
def jsStartsWith (s pre : String) : Bool := pre.toList.isPrefixOf s.toList

/-- JavaScript `s.endsWith(suf)`. -/
def jsEndsWith (s suf : String) : Bool := suf.toList.isSuffixOf s.toList

/-- JavaScript `s.trim()` on a character list: strip leading and trailing
whitespace. -/
def jsTrimList (cs : List Char) : List Char :=
  ((cs.dropWhile Char.isWhitespace).reverse.dropWhile Char.isWhitespace).reverse

/-- JavaScript `s.trim()`. -/
def jsTrim (s : String) : String := String.mk (jsTrimList s.toList)

/-- JavaScript template interpolation of a number-or-`null` value
(`null` prints as `"null"`). -/
def showIntOpt : Option Int → String
  | some n => toString n
  | none => "null"

/-- JavaScript template interpolation of the `timeoutMs` option
(`null` prints as `"null"`). -/
def showNatOpt : Option Nat → String
  | some n => toString n
  | none => "null"

/-! ### Fixed data of the provisioner (web2app-cli.js lines 11-22) -/

/-- The seven required Neutralino runtime binary filenames (`NEU_BINARIES`). -/
def NEU_BINARIES : List String :=
  [ "neutralino-linux_x64"
  , "neutralino-linux_armhf"
  , "neutralino-linux_arm64"
  , "neutralino-mac_x64"
  , "neutralino-mac_arm64"
  , "neutralino-mac_universal"
  , "neutralino-win_x64.exe" ]

/-- `NEU_RELEASE_API` constant. -/
def NEU_RELEASE_API : String :=
  "https://api.github.com/repos/neutralinojs/neutralinojs/releases/latest"

/-- `DEFAULT_NEU_TAG` constant. -/
def DEFAULT_NEU_TAG : String := "v6.4.0"

/-! ### Subprocess Runner (`runCommand`, web2app-cli.js lines 24-130)

`runCommand` spawns a shell command and wires up handlers:

* each stdout/stderr `data` chunk is appended to a capture buffer, but only
  while the buffer is shorter than 8000 characters (lines 51 and 75);
* a timer, when `timeoutMs` is configured, kills the process and sets
  `timedOut` (lines 78-85);
* `finalize` is registered for both the `exit` and the `close` event
  (lines 127-128); it is guarded by a `finished` flag, clears the timer,
  ends stdin, and then settles the promise from
  `(code, timedOut, allowFail, capturedStdout, capturedStderr)`.

The embedding below models the capture step, the pure settlement
computation of `finalize`, and the event-driven guard. -/

/-- One stdout/stderr `data` handler step (line 51 / line 75): append the
chunk only while the captured buffer is shorter than 8000 characters. -/
def captureStep (buf text : String) : String :=
  if buf.length < 8000 then buf ++ text else buf

/-- The captured buffer after a sequence of `data` chunks, starting empty. -/
def captureFold (chunks : List String) : String :=
  chunks.foldl captureStep ""

/-- How the promise returned by `runCommand` settles. -/
inductive Settled where
  | resolve (code : Option Int) (stdout stderr : String)
  | reject (msg : String)
deriving DecidableEq, Repr

/-- The timeout message template of `finalize`
(`Command timed out after ${timeoutMs}ms: ${command}`). -/
def timeoutMessage (tms : Option Nat) (command : String) : String :=
  "Command timed out after " ++ showNatOpt tms ++ "ms: " ++ command

/-- The `console.warn` text emitted when a failed command is allowed to fail
(line 110-112). -/
def commandFailedWarning (code : Option Int) (command out err : String) : String :=
  "! Command failed (" ++ showIntOpt code ++ "): " ++ command ++ "\n" ++
    jsOr (jsOr out err) "no output"

/-- The settlement logic of `finalize` (lines 87-125), as a pure function of
the exit code, the `timedOut` flag, the options and the captured output.
Returns the settlement together with the list of emitted warnings.  The
state-manipulating prologue of `finalize` (the `finished` guard, clearing
the timer, ending stdin) is modelled separately by `finalizeStep`. -/
def finalize (command : String) (allowFail : Bool) (tms : Option Nat)
    (timedOut : Bool) (out err : String) (code : Option Int) :
    Settled × List String :=
  let timeoutMsgOpt : Option String :=
    if timedOut then some (timeoutMessage tms command) else none
  if timedOut = true ∧ allowFail = false then
    let msg := timeoutMsgOpt.getD "Command timed out."
    let body := jsOr out err
    (.reject (if body = "" then msg else msg ++ "\n" ++ body), [])
  else if code = some 0 ∨ allowFail = true then
    let warns1 :=
      if code ≠ some 0 then [commandFailedWarning code command out err] else []
    let warns2 :=
      match timeoutMsgOpt with
      | some m => ["! " ++ m]
      | none => []
    (.resolve code out err, warns1 ++ warns2)
  else
    (.reject (if jsOr out err = "" then "Command failed: " ++ command
      else "Command failed (" ++ showIntOpt code ++ "): " ++ command ++ "\n" ++
        jsOr out err), [])

/-- The mutable state touched by `finalize`: the `finished` guard, whether
the timeout timer is still pending, and whether the child's stdin stream is
still open. -/
structure RunnerState where
  finished : Bool
  timerActive : Bool
  stdinOpen : Bool
deriving DecidableEq, Repr

/-- One invocation of `finalize` (triggered by an `exit` or `close` event
with exit code `code`): if `finished` is already set, nothing happens;
otherwise the guard is set, the timer is cleared and stdin is ended, and
only then is the settlement produced. -/
def finalizeStep (command : String) (allowFail : Bool) (tms : Option Nat)
    (timedOut : Bool) (out err : String) (st : RunnerState)
    (code : Option Int) : RunnerState × Option Settled :=
  if st.finished then (st, none)
  else
    (⟨true, false, false⟩,
      some (finalize command allowFail tms timedOut out err code).1)

/-- Run `finalize` for every `exit`/`close` event in order, collecting the
settlements actually produced. -/
def processFinalizeEvents (command : String) (allowFail : Bool)
    (tms : Option Nat) (timedOut : Bool) (out err : String) :
    List (Option Int) → RunnerState → RunnerState × List Settled
  | [], st => (st, [])
  | c :: cs, st =>
    let step := finalizeStep command allowFail tms timedOut out err st c
    let rest := processFinalizeEvents command allowFail tms timedOut out err cs step.1
    (rest.1, step.2.toList ++ rest.2)

/-! ### Network Fetcher (`downloadWithRedirect`, web2app-cli.js lines 197-242)

Each `client.get` yields one HTTP response; the chain of responses the
server side produces is passed in as a list consumed in request order.
`new URL(location, url).toString()` (Node's URL resolution, used for
relative `Location` headers) is external library code and is passed in as
the function `resolve`. -/

/-- One HTTP response as `downloadWithRedirect` inspects it: the status code
and the optional `Location` header. -/
structure HttpResponse where
  statusCode : Nat
  location : Option String
deriving DecidableEq, Repr

/-- `[301, 302, 303, 307, 308].includes(res.statusCode)` (line 205). -/
def isRedirectStatus (s : Nat) : Bool :=
  [301, 302, 303, 307, 308].contains s

/-- `maxRedirects` (line 198). -/
def maxRedirects : Nat := 5

/-- Resolution of a `Location` header against the current URL
(lines 213-215): absolute locations are taken as-is, relative ones go
through `new URL(location, url)` (the parameter `resolve`). -/
def resolveLocation (resolve : String → String → String)
    (location url : String) : String :=
  if jsStartsWith location "http" then location else resolve location url

/-- How one `downloadWithRedirect` call chain ends. -/
inductive DownloadOutcome where
  | ok
  | tooManyRedirects (url : String)
  | unexpectedStatus (code : Nat) (url : String)
  | noResponse (url : String)
deriving DecidableEq, Repr

/-- `downloadWithRedirect(url, destPath, redirectCount)`: follow redirect
responses, failing once `redirectCount` reaches `maxRedirects`; non-200,
non-redirect statuses are rejected; a 200 response streams to disk and
resolves.  Returns the outcome together with the list of URLs actually
requested, in order.  `noResponse` covers the case where the supplied
response list is exhausted (the request itself errors). -/
def downloadWithRedirect (resolve : String → String → String) :
    List HttpResponse → String → Nat → DownloadOutcome × List String
  | [], url, _ => (.noResponse url, [url])
  | res :: rest, url, redirectCount =>
    match res.location with
    | some location =>
      if isRedirectStatus res.statusCode then
        if redirectCount ≥ maxRedirects then (.tooManyRedirects url, [url])
        else
          let next := resolveLocation resolve location url
          let tail := downloadWithRedirect resolve rest next (redirectCount + 1)
          (tail.1, url :: tail.2)
      else if res.statusCode ≠ 200 then (.unexpectedStatus res.statusCode url, [url])
      else (.ok, [url])
    | none =>
      if res.statusCode ≠ 200 then (.unexpectedStatus res.statusCode url, [url])
      else (.ok, [url])

/-! ### Runtime Provisioner (web2app-cli.js lines 152-325)

The file system the provisioner touches is the cache `bin` directory; it is
modelled as `Option Dir` (`none` = the directory does not exist), where a
`Dir` maps filenames to an abstract content tag (so that overwriting a file
is observable).  External effects (the `neu update` subprocess, the GitHub
release-metadata query, the archive download and extraction) appear as an
effect trace and as explicitly passed results. -/

/-- A directory: an association list from filename to an abstract content
tag. -/
abbrev Dir := List (String × Nat)

/-- Does directory `d` contain a file called `name`? -/
def dirHas (d : Dir) (name : String) : Bool := d.any (fun p => p.1 = name)

/-- The content of file `name` in directory `d`, when present. -/
def dirGet (d : Dir) (name : String) : Option Nat :=
  (d.find? (fun p => p.1 = name)).map (fun p => p.2)

/-- `getMissingNeutralinoBinaries` (lines 152-158): if the cache `bin`
directory does not exist, every required binary is missing; otherwise the
required filenames absent from it. -/
def getMissingNeutralinoBinaries (binDir : Option Dir) : List String :=
  match binDir with
  | none => NEU_BINARIES
  | some d => NEU_BINARIES.filter (fun file => ! dirHas d file)

/-- `normalizeNeuTag` (lines 160-163): a falsy tag becomes the default tag,
otherwise a `v` prefix is ensured. -/
def normalizeNeuTag (tag : Option String) : String :=
  match tag with
  | none => DEFAULT_NEU_TAG
  | some t =>
    if t = "" then DEFAULT_NEU_TAG
    else if jsStartsWith t "v" then t else "v" ++ t

/-- `fetchLatestNeutralinoTag` (lines 165-195): `apiResult` stands for the
`tag_name` field of a successfully fetched and parsed 200 response
(`none` when the request failed, timed out, returned non-200, failed to
parse, or had a falsy `tag_name`), in which case the default tag is the
fallback. -/
def fetchLatestNeutralinoTag (apiResult : Option String) : String :=
  match apiResult with
  | some tagName =>
    if tagName = "" then DEFAULT_NEU_TAG else normalizeNeuTag (some tagName)
  | none => DEFAULT_NEU_TAG

/-- The environment variables the provisioner reads. -/
structure Env where
  web2appNeuTag : Option String
  neutralinoTag : Option String
  neuDirect : Option String
deriving DecidableEq, Repr

/-- `WEB2APP_NEU_DIRECT === "1" || WEB2APP_NEU_DIRECT === "true"`
(lines 294-296). -/
def preferDirectDownload (env : Env) : Bool :=
  env.neuDirect = some "1" ∨ env.neuDirect = some "true"

/-- An externally visible effect of the provisioner. -/
inductive Effect where
  | runCmd (cmd : String)
  | apiQuery (url : String)
  | download (url : String)
deriving DecidableEq, Repr

/-- How a provisioning step ends: success, or one of the errors it can
throw. -/
inductive ProvOutcome where
  | ok
  | downloadFailed
  | incompleteRuntimeDownload (missing : List String)
deriving DecidableEq, Repr

/-- The result of a provisioning step: the final cache `bin` directory, the
outcome, and the trace of external effects in order. -/
structure ProvResult where
  binDir : Option Dir
  outcome : ProvOutcome
  effects : List Effect
deriving DecidableEq, Repr

/-- The archive URL template (line 248). -/
def neuArchiveUrl (tag : String) : String :=
  "https://github.com/neutralinojs/neutralinojs/releases/download/" ++ tag ++
    "/neutralinojs-" ++ tag ++ ".zip"

/-- The copy loop of `downloadNeutralinoDirectly` (lines 262-270): starting
from a freshly created empty `bin` directory, copy each required binary
that is present in the extracted archive. -/
def copyArchiveBinaries (extracted : Dir) : Dir :=
  NEU_BINARIES.filterMap (fun file => (dirGet extracted file).map (fun v => (file, v)))

/-- `downloadNeutralinoDirectly` (lines 244-285).  The resolved tag comes
from the environment override or from the release-metadata query
(`apiResult`); `fetchResult` is the content of the temporary directory
after a successful download and extraction (`none` when the download or
the extraction rejects).  Note lines 253-254: both the temporary directory
and the existing cache `bin` directory are deleted before the download, so
the previous cache contents never survive this path; the `binDir0`
argument (the prior contents) is therefore unused. -/
def downloadNeutralinoDirectly (env : Env) (apiResult : Option String)
    (fetchResult : Option Dir) (_binDir0 : Option Dir) : ProvResult :=
  let forcedTag := jsOrStr env.web2appNeuTag env.neutralinoTag
  let tagEffects : List Effect :=
    match forcedTag with
    | some _ => []
    | none => [.apiQuery NEU_RELEASE_API]
  let tag :=
    match forcedTag with
    | some t => normalizeNeuTag (some t)
    | none => normalizeNeuTag (some (fetchLatestNeutralinoTag apiResult))
  let url := neuArchiveUrl tag
  match fetchResult with
  | none =>
    ⟨none, .downloadFailed, tagEffects ++ [.download url]⟩
  | some extracted =>
    let newBin := copyArchiveBinaries extracted
    let missingAfter := getMissingNeutralinoBinaries (some newBin)
    if missingAfter.length ≠ 0 then
      ⟨some newBin, .incompleteRuntimeDownload missingAfter,
        tagEffects ++ [.download url]⟩
    else
      ⟨some newBin, .ok, tagEffects ++ [.download url]⟩

/-- `ensureNeutralinoBinaries` (lines 287-325).  `primaryResult` is the
cache `bin` directory as left behind by the `neu update --latest`
subprocess (whose own success or failure is caught and only logged);
`apiResult` and `fetchResult` feed the direct-download fallback. -/
def ensureNeutralinoBinaries (env : Env) (primaryResult : Option Dir)
    (apiResult : Option String) (fetchResult : Option Dir)
    (binDir0 : Option Dir) (neuCmd : String) : ProvResult :=
  let missingBefore := getMissingNeutralinoBinaries binDir0
  if missingBefore.length = 0 then
    ⟨binDir0, .ok, []⟩
  else
    let preferDirect := preferDirectDownload env
    let binDir1 := if preferDirect then binDir0 else primaryResult
    let effects1 : List Effect :=
      if preferDirect then []
      else [.runCmd (neuCmd ++ " update --latest")]
    let missingAfterNeu := getMissingNeutralinoBinaries binDir1
    if preferDirect = true ∨ missingAfterNeu.length ≠ 0 then
      let r := downloadNeutralinoDirectly env apiResult fetchResult binDir1
      ⟨r.binDir, r.outcome, effects1 ++ r.effects⟩
    else
      ⟨binDir1, .ok, effects1⟩

/-! ### Version probe parsing (`getNeuVersion`, web2app-cli.js lines 327-395)

`getNeuVersion` builds a list of invocation attempts for the candidate and
runs them with `spawnSync`; the first attempt with exit status `0` and no
spawn error has its stdout parsed (lines 362-392):

* trimmed-empty output yields the sentinel `"detected"`;
* otherwise each trimmed non-blank line is matched against the
  case-insensitive pattern `neu\s*cli[:\s]+(v?[\w.\-]+)` and the first
  capture wins;
* otherwise the whole output is matched against the generic pattern
  `v?\d+\.\d+\.\d+(?:[.\w-]*)?`;
* otherwise the sentinel `"detected"` is returned.

The two regular expressions are implemented below as explicit character
scanners.  In both patterns the relevant character classes are disjoint, so
greedy matching without backtracking is exact; leftmost-match semantics is
obtained by trying every start position from the left. -/

/-- The JavaScript `\w` class: `[A-Za-z0-9_]`. -/
def isWordChar (c : Char) : Bool := c.isAlphanum ∨ c = '_'

/-- The class `[\w.\-]` of version characters in the labeled pattern. -/
def isVersionChar (c : Char) : Bool := isWordChar c ∨ c = '.' ∨ c = '-'

/-- The class `[:\s]` separating the label from the version. -/
def isLabelSep (c : Char) : Bool := c = ':' ∨ c.isWhitespace

/-- Match the labeled pattern `neu\s*cli[:\s]+(v?[\w.\-]+)` (case
insensitive) anchored at the start of `cs`, returning the capture group. -/
def matchNeuCliAt (cs : List Char) : Option String :=
  match cs with
  | c1 :: c2 :: c3 :: rest1 =>
    if c1.toLower = 'n' ∧ c2.toLower = 'e' ∧ c3.toLower = 'u' then
      let rest2 := rest1.dropWhile Char.isWhitespace
      match rest2 with
      | c4 :: c5 :: c6 :: rest3 =>
        if c4.toLower = 'c' ∧ c5.toLower = 'l' ∧ c6.toLower = 'i' then
          if (rest3.takeWhile isLabelSep).length = 0 then none
          else
            let afterSep := rest3.dropWhile isLabelSep
            let capture := afterSep.takeWhile isVersionChar
            if capture.length = 0 then none else some (String.mk capture)
        else none
      | _ => none
    else none
  | _ => none

/-- Leftmost match of the labeled pattern in a line. -/
def findNeuCliMatch : List Char → Option String
  | [] => none
  | c :: rest =>
    match matchNeuCliAt (c :: rest) with
    | some v => some v
    | none => findNeuCliMatch rest

/-- Match `\d+\.\d+\.\d+[.\w-]*` anchored at the start of `cs`. -/
def matchSemverCore (cs : List Char) : Option (List Char) :=
  let d1 := cs.takeWhile Char.isDigit
  if d1.length = 0 then none
  else
    match cs.drop d1.length with
    | '.' :: r1 =>
      let d2 := r1.takeWhile Char.isDigit
      if d2.length = 0 then none
      else
        match r1.drop d2.length with
        | '.' :: r2 =>
          let d3 := r2.takeWhile Char.isDigit
          if d3.length = 0 then none
          else
            let tail := (r2.drop d3.length).takeWhile (fun c => isWordChar c ∨ c = '.' ∨ c = '-')
            some (d1 ++ '.' :: d2 ++ '.' :: d3 ++ tail)
        | _ => none
    | _ => none

/-- Match the generic pattern `v?\d+\.\d+\.\d+(?:[.\w-]*)?` anchored at the
start of `cs`. -/
def matchSemverAt (cs : List Char) : Option (List Char) :=
  match cs with
  | 'v' :: rest =>
    match matchSemverCore rest with
    | some m => some ('v' :: m)
    | none => matchSemverCore cs
  | _ => matchSemverCore cs

/-- Leftmost match of the generic semantic-version pattern. -/
def findSemverMatch : List Char → Option (List Char)
  | [] => none
  | c :: rest =>
    match matchSemverAt (c :: rest) with
    | some m => some m
    | none => findSemverMatch rest

/-- Split on `/\r?\n/` as JavaScript `out.split(/\r?\n/)` does. -/
def splitLines : List Char → List (List Char)
  | [] => [[]]
  | '\r' :: '\n' :: rest => [] :: splitLines rest
  | '\n' :: rest => [] :: splitLines rest
  | c :: rest =>
    match splitLines rest with
    | [] => [[c]]
    | l :: ls => (c :: l) :: ls

/-- First labeled-pattern capture over a list of lines (lines 376-382). -/
def firstLabeledVersion : List (List Char) → Option String
  | [] => none
  | l :: ls =>
    match findNeuCliMatch l with
    | some v => some v
    | none => firstLabeledVersion ls

/-- The stdout-parsing step of `getNeuVersion` (lines 366-389), applied to
the raw stdout of an attempt that exited with status 0. -/
def parseNeuVersion (rawOut : String) : String :=
  let out := jsTrimList rawOut.toList
  if out.length = 0 then "detected"
  else
    let lines := ((splitLines out).map jsTrimList).filter (fun l => l.length ≠ 0)
    match firstLabeledVersion lines with
    | some v => v
    | none =>
      match findSemverMatch out with
      | some m => String.mk m
      | none => "detected"

/-- The result of one `spawnSync` probe attempt as `getNeuVersion` inspects
it: the exit status (`none` when killed), whether a spawn error was
reported, and the captured stdout. -/
structure ProbeResult where
  status : Option Int
  hasError : Bool
  stdout : String
deriving DecidableEq, Repr

/-- The attempt loop of `getNeuVersion` (lines 362-394): the first attempt
that exits with status 0 and no spawn error has its stdout parsed; if no
attempt qualifies the probe reports `none` (JavaScript `null`). -/
def getNeuVersion : List ProbeResult → Option String
  | [] => none
  | r :: rest =>
    if r.status = some 0 ∧ r.hasError = false then some (parseNeuVersion r.stdout)
    else getNeuVersion rest

/-! ### Tool Locator (`findNeutralinoCommand`, web2app-cli.js lines 397-478)

The version probe (a cascade of `spawnSync` calls) and the construction of
the candidate set (environment variables, filesystem scans, `npm bin -g`,
`where`/`which`) are external interactions; the probe is passed in as
`probe : String → Option String` and the candidate set, in its insertion
order, as a list.  The embedding models the fast path (lines 398-403), the
verification scan over the candidate set (lines 468-475) and the not-found
result (line 477), and records which candidates were probed. -/

/-- Quoting of the winning candidate (line 471):
`candidate.includes(" ") ? `"${candidate}"` : candidate`. -/
def normalizeCandidate (candidate : String) : String :=
  if candidate.toList.contains ' ' then "\"" ++ candidate ++ "\"" else candidate

/-- The verification loop over the candidate set (lines 468-475): return
the first candidate whose probe succeeds, normalized; record the candidates
probed, in order. -/
def scanCandidates (probe : String → Option String) :
    List String → Option String × List String
  | [] => (none, [])
  | c :: rest =>
    match probe c with
    | some _ => (some (normalizeCandidate c), [c])
    | none =>
      let tail := scanCandidates probe rest
      (tail.1, c :: tail.2)

/-- `findNeutralinoCommand`: fast path on the bare `neu` name, then the
scan over the candidate set.  Returns the resolved command (or `none`)
together with the list of candidates probed, in order. -/
def findNeutralinoCommand (probe : String → Option String)
    (candidates : List String) : Option String × List String :=
  match probe "neu" with
  | some _ => (some "neu", ["neu"])
  | none =>
    let scanned := scanCandidates probe candidates
    (scanned.1, "neu" :: scanned.2)

/-! ### Build output inventory (`listExecutables` and the main IIFE)

`listExecutables` (web2app-cli.js lines 494-514, identical in
web2app-cli.cjs lines 555-575) inventories the per-binary-name output
directory.  After the build command resolves, the `.cjs` entry point throws
when the inventory is empty (web2app-cli.cjs lines 874-878); the `.js`
entry point performs no such check (web2app-cli.js lines 609-633). -/

/-- One entry of `fs.readdirSync(buildDir, { withFileTypes: true })`. -/
structure DirEntry where
  name : String
  isFile : Bool
deriving DecidableEq, Repr

/-- The inventory result. -/
structure BuildOutputs where
  executables : List String
  archives : List String
deriving DecidableEq, Repr

/-- `path.join(a, b)` for a simple relative filename. -/
def pathJoin (a b : String) : String := a ++ "/" ++ b

/-- `listExecutables(baseDir, binaryName)`: `entries` is the directory
listing of `path.join(baseDir, binaryName)` (`none` when that directory
does not exist).  Regular files ending in `-release.zip` are archives;
regular files whose name starts with the binary name — except
`resources.neu` — are executables. -/
def listExecutables (buildDir : String) (binaryName : String)
    (entries : Option (List DirEntry)) : BuildOutputs :=
  match entries with
  | none => ⟨[], []⟩
  | some es =>
    es.foldl (fun acc e =>
      if e.isFile = false then acc
      else if jsEndsWith e.name "-release.zip" then
        ⟨acc.executables, acc.archives ++ [pathJoin buildDir e.name]⟩
      else if jsStartsWith e.name binaryName ∧ e.name ≠ "resources.neu" then
        ⟨acc.executables ++ [pathJoin buildDir e.name], acc.archives⟩
      else acc) ⟨[], []⟩

/-- The post-build check of the `.cjs` entry point (web2app-cli.cjs lines
874-878): with no executables and no archives the run throws. -/
def buildOutcomeCjs (outs : BuildOutputs) : Except String Unit :=
  if outs.executables.length = 0 ∧ outs.archives.length = 0 then
    .error "Neutralino build finished without outputs. Check the build logs above for errors."
  else .ok ()

/-- The post-build behavior of the `.js` entry point (web2app-cli.js lines
609-633): the inventory is computed and printed but never checked, so the
run continues successfully regardless. -/
def buildOutcomeJs (_outs : BuildOutputs) : Except String Unit := .ok ()

/-- Classifier for download effects. -/
def isDownloadEffect : Effect → Bool
  | .download _ => true
  | _ => false

/-- Classifier for subprocess effects. -/
def isRunCmdEffect : Effect → Bool
  | .runCmd _ => true
  | _ => false

/-! ## Helper lemmas -/

/-- Once the `finished` guard is set, further `exit`/`close` events are
ignored. -/
theorem processFinalizeEvents_of_finished (command : String) (allowFail : Bool)
    (tms : Option Nat) (timedOut : Bool) (out err : String)
    (events : List (Option Int)) (st : RunnerState) (h : st.finished = true) :
    processFinalizeEvents command allowFail tms timedOut out err events st = (st, []) := by
  induction events with
  | nil => rfl
  | cons c cs ih =>
    simp [processFinalizeEvents, finalizeStep, h, ih]

/-- The capture buffer stays below `8000 + k` when every chunk is at most
`k` characters long. -/
theorem captureStep_foldl_lt (k : Nat) (chunks : List String) :
    ∀ buf : String, buf.length < 8000 + k → (∀ c ∈ chunks, c.length ≤ k) →
      (chunks.foldl captureStep buf).length < 8000 + k := by
  induction chunks with
  | nil => intro buf hb _; simpa using hb
  | cons c cs ih =>
    intro buf hb h
    simp only [List.foldl_cons]
    refine ih (captureStep buf c) ?_ (fun x hx => h x (List.mem_cons_of_mem _ hx))
    have hc : c.length ≤ k := h c (List.mem_cons_self _ _)
    by_cases hlt : buf.length < 8000
    · simp only [captureStep, if_pos hlt, String.length_append]
      omega
    · simpa only [captureStep, if_neg hlt] using hb

/-! ## Claim C5: the captured-output bound -/

/-- C5 counterexample: the captured-stdout buffer is NOT bounded by
(approximately) 8000 characters regardless of the child's output: a single
20000-character chunk arriving while the buffer is still empty is appended
whole, leaving a buffer of 20000 characters — more than twice the claimed
bound.  The guard `if (capturedStdout.length < 8000)` only stops further
appends once the bound has already been passed. -/
theorem capture_buffer_can_exceed_bound :
    16000 < (captureFold [String.mk (List.replicate 20000 'a')]).length := by
  have h1 : captureFold [String.mk (List.replicate 20000 'a')] =
      "" ++ String.mk (List.replicate 20000 'a') := rfl
  have h2 : (String.mk (List.replicate 20000 'a')).length = 20000 := by
    show (List.replicate 20000 'a').length = 20000
    rw [List.length_replicate]
  have h0 : ("" : String).length = 0 := rfl
  rw [h1, String.length_append, h2, h0]
  omega

/-- C5 (amended): the capture buffer stops growing once it reaches 8000
characters, so after any sequence of stdout (or stderr) `data` chunks each
of at most `k` characters, the captured buffer holds fewer than `8000 + k`
characters; the buffer never grows by more than one chunk past the 8000
mark, but a single oversized chunk can exceed any fixed bound. -/
theorem capture_buffer_bounded_by_chunk (chunks : List String) (k : Nat)
    (h : ∀ c ∈ chunks, c.length ≤ k) :
    (captureFold chunks).length < 8000 + k := by
  have h0 : ("" : String).length = 0 := rfl
  exact captureStep_foldl_lt k chunks "" (by omega) h

/-- Witness for `capture_buffer_bounded_by_chunk` at a concrete chunk
sequence. -/
theorem capture_buffer_bounded_by_chunk_witness :
    (captureFold ["ab", "cd"]).length < 8000 + 2 :=
  capture_buffer_bounded_by_chunk ["ab", "cd"] 2 (by decide)

/-! ## Claim C10: the promise settles exactly once -/

/-- C10: although `finalize` is registered for both the `exit` and the
`close` event, the `finished` guard makes the promise settle at most once —
and exactly once as soon as at least one `exit`/`close` event fires — and
whenever a settlement is produced the timer has been cleared and stdin has
been ended first (the settling step leaves the runner state with
`finished = true`, `timerActive = false`, `stdinOpen = false`). -/
theorem runCommand_settles_exactly_once (command : String) (allowFail : Bool)
    (tms : Option Nat) (timedOut : Bool) (out err : String)
    (events : List (Option Int)) (t0 s0 : Bool) :
    (processFinalizeEvents command allowFail tms timedOut out err events
        ⟨false, t0, s0⟩).2.length ≤ 1 ∧
    (events ≠ [] →
      (processFinalizeEvents command allowFail tms timedOut out err events
          ⟨false, t0, s0⟩).2.length = 1 ∧
      (processFinalizeEvents command allowFail tms timedOut out err events
          ⟨false, t0, s0⟩).1 = ⟨true, false, false⟩) ∧
    (∀ (st : RunnerState) (code : Option Int),
      (finalizeStep command allowFail tms timedOut out err st code).2.isSome = true →
      (finalizeStep command allowFail tms timedOut out err st code).1 =
        ⟨true, false, false⟩) := by
  refine ⟨?_, ?_, ?_⟩
  · cases events with
    | nil => simp [processFinalizeEvents]
    | cons c cs =>
      simp [processFinalizeEvents, finalizeStep,
        processFinalizeEvents_of_finished]
  · intro h
    cases events with
    | nil => exact absurd rfl h
    | cons c cs =>
      simp [processFinalizeEvents, finalizeStep,
        processFinalizeEvents_of_finished]
  · intro st code h
    by_cases hf : st.finished = true
    · simp [finalizeStep, hf] at h
    · simp only [Bool.not_eq_true] at hf
      simp [finalizeStep, hf]

/-- Witness for `runCommand_settles_exactly_once`: two events (an `exit`
followed by a `close`) settle the promise exactly once. -/
theorem runCommand_settles_exactly_once_witness :
    (processFinalizeEvents "c" false none false "" "" [some 0, some 0]
        ⟨false, true, true⟩).2.length = 1 :=
  ((runCommand_settles_exactly_once "c" false none false "" ""
    [some 0, some 0] true true).2.1 (by decide)).1

/-! ## Claim C4: outcome classification of `runCommand` -/

/-- C4 counterexample: when a command exits non-zero with `allowFail` unset
but NO output was captured, the rejection error does not carry the exit
code: the message is just `Command failed: <command>` (the exit code `2`
appears nowhere in it), contradicting the claim that the error always
carries the exit code and the captured output. -/
theorem runCommand_failure_message_omits_code :
    finalize "c" false none false "" "" (some 2) =
      (.reject "Command failed: c", []) ∧
    ¬ (String.toList "(2)" <:+: String.toList "Command failed: c") ∧
    ¬ (String.toList "2" <:+: String.toList "Command failed: c") := by
  refine ⟨by decide, by decide, by decide⟩

/-- C4 (amended): classification of every `runCommand` settlement.  With no
timeout: exit code 0 resolves with the captured output; a non-zero exit
with `allowFail` unset rejects, with a message carrying the exit code and
the captured output when any output was captured, and naming only the
command otherwise; a non-zero exit with `allowFail` set resolves and emits
a warning.  After a timeout kill: with `allowFail` unset the promise
rejects with the timed-out message carrying the captured output (when
non-empty); with `allowFail` set it resolves and emits at least one
warning. -/
theorem runCommand_outcome_cases (command : String) (tms : Option Nat)
    (out err : String) (code : Int) :
    (∀ allowFail : Bool,
      finalize command allowFail tms false out err (some 0) =
        (.resolve (some 0) out err, [])) ∧
    (code ≠ 0 → jsOr out err ≠ "" →
      finalize command false tms false out err (some code) =
        (.reject ("Command failed (" ++ toString code ++ "): " ++ command ++
          "\n" ++ jsOr out err), [])) ∧
    (code ≠ 0 → jsOr out err = "" →
      finalize command false tms false out err (some code) =
        (.reject ("Command failed: " ++ command), [])) ∧
    (code ≠ 0 →
      finalize command true tms false out err (some code) =
        (.resolve (some code) out err,
          [commandFailedWarning (some code) command out err])) ∧
    (∀ c : Option Int,
      finalize command false tms true out err c =
        (.reject (if jsOr out err = "" then timeoutMessage tms command
          else timeoutMessage tms command ++ "\n" ++ jsOr out err), [])) ∧
    (∀ c : Option Int, ∃ ws : List String, ws ≠ [] ∧
      finalize command true tms true out err c = (.resolve c out err, ws)) := by
  refine ⟨?_, ?_, ?_, ?_, ?_, ?_⟩
  · intro allowFail
    simp [finalize]
  · intro hc hbody
    have : some code ≠ some 0 := by
      simpa using hc
    simp [finalize, this, hbody, showIntOpt]
  · intro hc hbody
    have : some code ≠ some 0 := by
      simpa using hc
    simp [finalize, this, hbody]
  · intro hc
    have : some code ≠ some 0 := by
      simpa using hc
    simp [finalize, this]
  · intro c
    by_cases hbody : jsOr out err = "" <;> simp [finalize, hbody]
  · intro c
    by_cases hc : c = some 0
    · exact ⟨["! " ++ timeoutMessage tms command], by simp, by simp [finalize, hc]⟩
    · exact ⟨[commandFailedWarning c command out err,
        "! " ++ timeoutMessage tms command], by simp, by simp [finalize, hc]⟩

/-- Witness for `runCommand_outcome_cases` at concrete inputs, exercising
the non-zero-exit rejection and the timed-out rejection. -/
theorem runCommand_outcome_cases_witness :
    finalize "c" false (some 50) false "boom" "" (some 3) =
      (.reject "Command failed (3): c\nboom", []) ∧
    finalize "c" false (some 50) true "boom" "" none =
      (.reject "Command timed out after 50ms: c\nboom", []) := by
  constructor
  · exact ((runCommand_outcome_cases "c" (some 50) "boom" "" 3).2.1
      (by decide) (by decide)).trans (by decide)
  · exact ((runCommand_outcome_cases "c" (some 50) "boom" "" 3).2.2.2.2.1
      none).trans (by decide)

/-! ## Provisioner helper lemmas -/

/-- The missing set over an existing directory is empty exactly when every
required binary is present. -/
theorem getMissing_eq_nil_iff (d : Dir) :
    getMissingNeutralinoBinaries (some d) = [] ↔
      ∀ f ∈ NEU_BINARIES, dirHas d f = true := by
  simp [getMissingNeutralinoBinaries, List.filter_eq_nil_iff]

/-- A cache with an empty missing set makes `ensureNeutralinoBinaries`
return immediately, with no effects. -/
theorem ensure_of_missing_nil (env : Env) (primaryResult : Option Dir)
    (apiResult : Option String) (fetchResult : Option Dir) (b : Option Dir)
    (neuCmd : String) (h : getMissingNeutralinoBinaries b = []) :
    ensureNeutralinoBinaries env primaryResult apiResult fetchResult b neuCmd =
      ⟨b, .ok, []⟩ := by
  unfold ensureNeutralinoBinaries
  rw [h]
  simp

/-- `downloadNeutralinoDirectly` succeeds only with a complete binary set,
and its incomplete-download error lists exactly the missing files. -/
theorem download_spec (env : Env) (apiResult : Option String)
    (fetchResult : Option Dir) (b : Option Dir) :
    ((downloadNeutralinoDirectly env apiResult fetchResult b).outcome = .ok →
      getMissingNeutralinoBinaries
        (downloadNeutralinoDirectly env apiResult fetchResult b).binDir = []) ∧
    (∀ m, (downloadNeutralinoDirectly env apiResult fetchResult b).outcome =
        .incompleteRuntimeDownload m →
      m = getMissingNeutralinoBinaries
          (downloadNeutralinoDirectly env apiResult fetchResult b).binDir ∧
      m ≠ []) := by
  unfold downloadNeutralinoDirectly
  cases fetchResult with
  | none => simp
  | some extracted =>
    by_cases hm :
      (getMissingNeutralinoBinaries (some (copyArchiveBinaries extracted))).length = 0
    · simp [hm, List.length_eq_zero.mp hm]
    · simp only [hm]
      simp only [ne_eq, hm, not_false_eq_true, if_true]
      refine ⟨by simp, ?_⟩
      intro m hmeq
      refine ⟨by simpa using hmeq.symm, ?_⟩
      intro hnil
      exact hm (by simp [← (by simpa using hmeq : _ = m), hnil] at hnil ⊢; simp [hnil])

/-- `ensureNeutralinoBinaries` succeeds only with a complete binary set,
and its incomplete-download error lists exactly the missing files. -/
theorem ensure_spec (env : Env) (primaryResult : Option Dir)
    (apiResult : Option String) (fetchResult : Option Dir) (binDir0 : Option Dir)
    (neuCmd : String) :
    ((ensureNeutralinoBinaries env primaryResult apiResult fetchResult binDir0
        neuCmd).outcome = .ok →
      getMissingNeutralinoBinaries
        (ensureNeutralinoBinaries env primaryResult apiResult fetchResult binDir0
          neuCmd).binDir = []) ∧
    (∀ m, (ensureNeutralinoBinaries env primaryResult apiResult fetchResult binDir0
        neuCmd).outcome = .incompleteRuntimeDownload m →
      m = getMissingNeutralinoBinaries
          (ensureNeutralinoBinaries env primaryResult apiResult fetchResult binDir0
            neuCmd).binDir ∧
      m ≠ []) := by
  unfold ensureNeutralinoBinaries
  by_cases h0 : (getMissingNeutralinoBinaries binDir0).length = 0
  · simp [h0, List.length_eq_zero.mp h0]
  · rw [if_neg h0]
    by_cases hp : preferDirectDownload env = true
    · simp only [hp, if_true, true_or]
      simpa using download_spec env apiResult fetchResult binDir0
    · simp only [Bool.not_eq_true] at hp
      simp only [hp, Bool.false_eq_true, if_false, false_or]
      by_cases hm2 : getMissingNeutralinoBinaries primaryResult = []
      · simp [hm2]
      · simp only [ne_eq, hm2, not_false_eq_true, List.length_eq_zero, if_true]
        simpa using download_spec env apiResult fetchResult primaryResult

/-! ## Claim C1: ensure never succeeds with missing binaries -/

/-- C1: for every initial cache state and every behavior of the primary
and secondary acquisition paths, when `ensureNeutralinoBinaries` returns
successfully the missing-binary set computed over the final cache bin
directory is empty; when the secondary direct download leaves files
missing, the provisioner fails with the incomplete-runtime-download error
listing exactly the (non-empty) missing filenames.  It never returns
success while a required binary is absent. -/
theorem ensure_never_succeeds_incomplete (env : Env) (primaryResult : Option Dir)
    (apiResult : Option String) (fetchResult : Option Dir) (binDir0 : Option Dir)
    (neuCmd : String) (r : ProvResult)
    (hr : r = ensureNeutralinoBinaries env primaryResult apiResult fetchResult
      binDir0 neuCmd) :
    (r.outcome = .ok → getMissingNeutralinoBinaries r.binDir = []) ∧
    (∀ m, r.outcome = .incompleteRuntimeDownload m →
      m = getMissingNeutralinoBinaries r.binDir ∧ m ≠ []) := by
  subst hr
  exact ensure_spec env primaryResult apiResult fetchResult binDir0 neuCmd

/-- Witness for `ensure_never_succeeds_incomplete` at a fully populated
cache. -/
theorem ensure_never_succeeds_incomplete_witness :
    getMissingNeutralinoBinaries
      (ensureNeutralinoBinaries ⟨none, none, none⟩ none none none
        (some (NEU_BINARIES.map (fun f => (f, 0)))) "neu").binDir = [] :=
  (ensure_never_succeeds_incomplete ⟨none, none, none⟩ none none none
    (some (NEU_BINARIES.map (fun f => (f, 0)))) "neu" _ rfl).1 (by decide)

/-! ## Claim C2: idempotence on a populated cache -/

/-- C2: with every required binary already present in the cache bin
directory, `ensureNeutralinoBinaries` returns immediately with an empty
effect trace — no network request, no download, no subprocess — and leaves
the directory untouched; consequently, a second `ensure` run after any
successful run is such a cache hit and performs no effects either. -/
theorem ensure_cached_idempotent (env : Env) (primaryResult : Option Dir)
    (apiResult : Option String) (fetchResult : Option Dir) (d : Dir)
    (neuCmd : String) (hfull : ∀ f ∈ NEU_BINARIES, dirHas d f = true) :
    ensureNeutralinoBinaries env primaryResult apiResult fetchResult (some d)
        neuCmd = ⟨some d, .ok, []⟩ ∧
    (∀ (env₂ : Env) (p₂ : Option Dir) (a₂ : Option String) (f₂ : Option Dir)
        (b₂ : Option Dir) (cmd₂ : String) (env₃ : Env) (p₃ : Option Dir)
        (a₃ : Option String) (f₃ : Option Dir) (cmd₃ : String),
      (ensureNeutralinoBinaries env₂ p₂ a₂ f₂ b₂ cmd₂).outcome = .ok →
      ensureNeutralinoBinaries env₃ p₃ a₃ f₃
          (ensureNeutralinoBinaries env₂ p₂ a₂ f₂ b₂ cmd₂).binDir cmd₃ =
        ⟨(ensureNeutralinoBinaries env₂ p₂ a₂ f₂ b₂ cmd₂).binDir, .ok, []⟩) := by
  constructor
  · exact ensure_of_missing_nil env primaryResult apiResult fetchResult (some d)
      neuCmd ((getMissing_eq_nil_iff d).2 hfull)
  · intro env₂ p₂ a₂ f₂ b₂ cmd₂ env₃ p₃ a₃ f₃ cmd₃ hok
    exact ensure_of_missing_nil env₃ p₃ a₃ f₃ _ cmd₃
      ((ensure_spec env₂ p₂ a₂ f₂ b₂ cmd₂).1 hok)

/-- Witness for `ensure_cached_idempotent` at a concrete populated cache
(even with the force-direct flag set, a cache hit performs no effects). -/
theorem ensure_cached_idempotent_witness :
    ensureNeutralinoBinaries ⟨none, none, some "1"⟩ none none none
      (some (NEU_BINARIES.map (fun f => (f, 0)))) "neu" =
      ⟨some (NEU_BINARIES.map (fun f => (f, 0))), .ok, []⟩ :=
  (ensure_cached_idempotent ⟨none, none, some "1"⟩ none none none
    (NEU_BINARIES.map (fun f => (f, 0))) "neu" (by decide)).1

/-! ## Claim C3: forced direct download with one missing binary -/

/-- An environment pinning the release tag and forcing direct download. -/
def forceDirectEnv : Env := ⟨some "v6.4.0", none, some "1"⟩

/-- A cache bin directory holding six of the seven required binaries, all
with content tag 0. -/
def sixOfSevenBin : Dir := (NEU_BINARIES.take 6).map (fun f => (f, 0))

/-- An extracted release archive holding all seven required binaries with
content tag 1. -/
def fullArchive : Dir := NEU_BINARIES.map (fun f => (f, 1))

/-- If the extracted archive holds every required binary, the freshly
copied bin directory has an empty missing set. -/
theorem missing_copyArchive_nil (ar : Dir)
    (har : ∀ f ∈ NEU_BINARIES, dirHas ar f = true) :
    getMissingNeutralinoBinaries (some (copyArchiveBinaries ar)) = [] := by
  rw [getMissing_eq_nil_iff]
  intro f hf
  have h2 : ∃ p ∈ ar, p.1 = f := by
    simpa [dirHas] using har f hf
  have h3 : (ar.find? (fun p => p.1 = f)).isSome = true := by
    rw [List.find?_isSome]
    obtain ⟨p, hp, hpe⟩ := h2
    exact ⟨p, hp, by simpa using hpe⟩
  obtain ⟨q, hq⟩ := Option.isSome_iff_exists.mp h3
  have hv : dirGet ar f = some q.2 := by
    simp [dirGet, hq]
  have hmem : (f, q.2) ∈ copyArchiveBinaries ar := by
    rw [copyArchiveBinaries, List.mem_filterMap]
    exact ⟨f, hf, by simp [hv]⟩
  simp only [dirHas, List.any_eq_true]
  exact ⟨(f, q.2), hmem, by simp⟩

/-- Effect trace of the direct download: exactly one archive download and
no subprocess invocation (plus at most one metadata query). -/
theorem download_effect_counts (env : Env) (apiResult : Option String)
    (fetchResult : Option Dir) (b : Option Dir) :
    (((downloadNeutralinoDirectly env apiResult fetchResult b).effects).filter
        isDownloadEffect).length = 1 ∧
    (((downloadNeutralinoDirectly env apiResult fetchResult b).effects).filter
        isRunCmdEffect).length = 0 := by
  unfold downloadNeutralinoDirectly
  cases h : jsOrStr env.web2appNeuTag env.neutralinoTag <;>
    cases fetchResult <;>
      simp [isDownloadEffect, isRunCmdEffect] <;>
        split <;> simp [isDownloadEffect, isRunCmdEffect]

/-- A successful download and extraction yields the copied archive
binaries, provided they are complete. -/
theorem download_complete (env : Env) (apiResult : Option String)
    (extracted : Dir) (b : Option Dir)
    (h : getMissingNeutralinoBinaries (some (copyArchiveBinaries extracted)) = []) :
    (downloadNeutralinoDirectly env apiResult (some extracted) b).binDir =
      some (copyArchiveBinaries extracted) ∧
    (downloadNeutralinoDirectly env apiResult (some extracted) b).outcome = .ok := by
  unfold downloadNeutralinoDirectly
  simp [h]

/-- With the force-direct flag set and a non-empty missing set, `ensure`
skips the primary path and hands over to the direct download. -/
theorem ensure_forced_direct (env : Env) (primaryResult : Option Dir)
    (apiResult : Option String) (fetchResult : Option Dir) (d : Dir)
    (neuCmd : String) (hdir : preferDirectDownload env = true)
    (hmiss : getMissingNeutralinoBinaries (some d) ≠ []) :
    ensureNeutralinoBinaries env primaryResult apiResult fetchResult (some d)
        neuCmd =
      ⟨(downloadNeutralinoDirectly env apiResult fetchResult (some d)).binDir,
       (downloadNeutralinoDirectly env apiResult fetchResult (some d)).outcome,
       (downloadNeutralinoDirectly env apiResult fetchResult (some d)).effects⟩ := by
  unfold ensureNeutralinoBinaries
  rw [if_neg (fun h => hmiss (List.length_eq_zero.mp h))]
  simp [hdir]

/-- C3 counterexample: with the force-direct flag set and six of the seven
required binaries present (content tag 0), the provisioner does NOT leave
the six present files unchanged, and does not copy only the missing one:
`downloadNeutralinoDirectly` first deletes the whole bin directory
(web2app-cli.js line 254) and then copies every binary found in the
archive, so a file that was already present ends up with the archive's
content (tag 1) instead of its original content (tag 0). -/
theorem provision_force_direct_overwrites_existing :
    dirGet sixOfSevenBin "neutralino-linux_x64" = some 0 ∧
    getMissingNeutralinoBinaries (some sixOfSevenBin) =
      ["neutralino-win_x64.exe"] ∧
    (ensureNeutralinoBinaries forceDirectEnv none none (some fullArchive)
        (some sixOfSevenBin) "neu").binDir = some fullArchive ∧
    dirGet fullArchive "neutralino-linux_x64" = some 1 := by
  refine ⟨by decide, by decide, by decide, by decide⟩

/-- C3 (amended): with the force-direct flag set and at least one required
binary missing, the provisioner downloads the release archive exactly once
and runs no subprocess; it replaces the cache bin directory with the
binaries copied from the archive (rather than filling in only the missing
one), and when the archive holds all seven required binaries the final
missing-set check passes and `ensure` succeeds. -/
theorem provision_force_direct_replaces_bin (env : Env)
    (primaryResult : Option Dir) (apiResult : Option String) (ar d : Dir)
    (neuCmd : String) (r : ProvResult)
    (hr : r = ensureNeutralinoBinaries env primaryResult apiResult (some ar)
      (some d) neuCmd)
    (hdir : preferDirectDownload env = true)
    (hmiss : getMissingNeutralinoBinaries (some d) ≠ [])
    (har : ∀ f ∈ NEU_BINARIES, dirHas ar f = true) :
    r.binDir = some (copyArchiveBinaries ar) ∧
    r.outcome = .ok ∧
    (r.effects.filter isDownloadEffect).length = 1 ∧
    (r.effects.filter isRunCmdEffect).length = 0 ∧
    getMissingNeutralinoBinaries r.binDir = [] := by
  subst hr
  have hmc := missing_copyArchive_nil ar har
  rw [ensure_forced_direct env primaryResult apiResult (some ar) d neuCmd hdir hmiss]
  have hdc := download_complete env apiResult ar (some d) hmc
  have hec := download_effect_counts env apiResult (some ar) (some d)
  exact ⟨hdc.1, hdc.2, hec.1, hec.2, by rw [hdc.1]; exact hmc⟩

/-- Witness for `provision_force_direct_replaces_bin` at the concrete
six-of-seven cache. -/
theorem provision_force_direct_replaces_bin_witness :
    (ensureNeutralinoBinaries forceDirectEnv none none (some fullArchive)
        (some sixOfSevenBin) "neu").outcome = .ok :=
  (provision_force_direct_replaces_bin forceDirectEnv none none fullArchive
    sixOfSevenBin "neu" _ rfl (by decide) (by decide) (by decide)).2.1

/-! ## Claim C6: bounded redirect following -/

/-- Unfolding step: a redirect response below the hop bound is followed to
the resolved location with an incremented redirect count. -/
theorem dwr_follow_step (resolve : String → String → String) (code : Nat)
    (loc : String) (rest : List HttpResponse) (url : String) (n : Nat)
    (hred : isRedirectStatus code = true) (hn : n < maxRedirects) :
    downloadWithRedirect resolve (⟨code, some loc⟩ :: rest) url n =
      ((downloadWithRedirect resolve rest (resolveLocation resolve loc url)
          (n + 1)).1,
        url :: (downloadWithRedirect resolve rest
          (resolveLocation resolve loc url) (n + 1)).2) := by
  simp only [downloadWithRedirect, hred, if_true]
  rw [if_neg (by omega)]

/-- A redirect response at the hop bound fails immediately. -/
theorem dwr_too_many_step (resolve : String → String → String) (code : Nat)
    (loc : String) (rest : List HttpResponse) (url : String) (n : Nat)
    (hred : isRedirectStatus code = true) (hn : maxRedirects ≤ n) :
    downloadWithRedirect resolve (⟨code, some loc⟩ :: rest) url n =
      (.tooManyRedirects url, [url]) := by
  simp only [downloadWithRedirect, hred, if_true]
  rw [if_pos hn]

/-- Along a chain of redirect responses long enough to exhaust the
remaining hop budget, the download fails with the too-many-redirects error
after requesting exactly `6 - n` URLs. -/
theorem dwr_all_redirects (resolve : String → String → String) :
    ∀ (rs : List HttpResponse) (url : String) (n : Nat),
      (∀ r ∈ rs, isRedirectStatus r.statusCode = true ∧ r.location.isSome = true) →
      6 ≤ rs.length + n → n ≤ 5 →
      (∃ u, (downloadWithRedirect resolve rs url n).1 = .tooManyRedirects u) ∧
      (downloadWithRedirect resolve rs url n).2.length = 6 - n := by
  intro rs
  induction rs with
  | nil =>
    intro url n _ h6 h5
    simp at h6
    omega
  | cons res rest ih =>
    intro url n hall h6 h5
    obtain ⟨code, lo⟩ := res
    obtain ⟨hred, hloc⟩ := hall ⟨code, lo⟩ (List.mem_cons_self _ _)
    obtain ⟨loc, hl⟩ := Option.isSome_iff_exists.mp hloc
    simp only at hl
    subst hl
    by_cases hn : maxRedirects ≤ n
    · have hn5 : n = 5 := by
        have : maxRedirects = 5 := rfl
        omega
      subst hn5
      rw [dwr_too_many_step resolve code loc rest url 5 hred hn]
      exact ⟨⟨url, rfl⟩, rfl⟩
    · have hn5 : n < maxRedirects := by omega
      have hrec := ih (resolveLocation resolve loc url) (n + 1)
        (fun r hr => hall r (List.mem_cons_of_mem _ hr))
        (by simp only [List.length_cons] at h6; omega)
        (by have : maxRedirects = 5 := rfl; omega)
      rw [dwr_follow_step resolve code loc rest url n hred hn5]
      refine ⟨hrec.1, ?_⟩
      simp only [List.length_cons, hrec.2]
      have : maxRedirects = 5 := rfl
      omega

/-- C6: `downloadWithRedirect` follows a 301/302/303/307/308 response via
its Location header (resolving a relative location against the current
URL) while fewer than 5 hops have been taken; a relative location is
resolved against the current URL; and on a chain of 6 consecutive redirect
responses it fails with the too-many-redirects error having requested only
6 URLs — the 6th redirect target is never requested. -/
theorem redirects_bounded_at_five (resolve : String → String → String) :
    (∀ (code : Nat) (loc : String) (rest : List HttpResponse) (url : String)
        (n : Nat), isRedirectStatus code = true → n < maxRedirects →
      downloadWithRedirect resolve (⟨code, some loc⟩ :: rest) url n =
        ((downloadWithRedirect resolve rest (resolveLocation resolve loc url)
            (n + 1)).1,
          url :: (downloadWithRedirect resolve rest
            (resolveLocation resolve loc url) (n + 1)).2)) ∧
    (∀ loc url : String, jsStartsWith loc "http" = false →
      resolveLocation resolve loc url = resolve loc url) ∧
    (∀ (rs : List HttpResponse) (url : String), rs.length = 6 →
      (∀ r ∈ rs, isRedirectStatus r.statusCode = true ∧ r.location.isSome = true) →
      (∃ u, (downloadWithRedirect resolve rs url 0).1 = .tooManyRedirects u) ∧
      (downloadWithRedirect resolve rs url 0).2.length = 6) := by
  refine ⟨?_, ?_, ?_⟩
  · intro code loc rest url n hred hn
    exact dwr_follow_step resolve code loc rest url n hred hn
  · intro loc url h
    simp [resolveLocation, h]
  · intro rs url hlen hall
    have := dwr_all_redirects resolve rs url 0 hall (by omega) (by omega)
    simpa using this

/-- Witness for `redirects_bounded_at_five`: a concrete chain of six 302
responses fails with too-many-redirects after six requests. -/
theorem redirects_bounded_at_five_witness :
    (downloadWithRedirect (fun l _ => l)
        (List.replicate 6 ⟨302, some "/next"⟩) "https://a" 0).2.length = 6 :=
  ((redirects_bounded_at_five (fun l _ => l)).2.2
    (List.replicate 6 ⟨302, some "/next"⟩) "https://a" (by decide)
    (by decide)).2

/-! ## Claim C7: the locator returns the first verified candidate -/

/-- The candidate scan returns the first candidate whose probe succeeds. -/
theorem scanCandidates_eq_find (probe : String → Option String)
    (cs : List String) :
    (scanCandidates probe cs).1 =
      (cs.find? (fun c => (probe c).isSome)).map normalizeCandidate := by
  induction cs with
  | nil => rfl
  | cons c rest ih =>
    cases h : probe c with
    | some v => simp [scanCandidates, List.find?_cons, h]
    | none => simp [scanCandidates, List.find?_cons, h, ih]

/-- C7: if the fast-path probe of the bare name `neu` succeeds, the locator
returns `neu` immediately, having probed nothing else; otherwise the
locator returns the first candidate (in set-insertion order) whose version
probe succeeds — never a later one, even if several would succeed — and
reports `none` when no candidate probes successfully. -/
theorem locator_first_candidate_wins (probe : String → Option String)
    (candidates : List String) :
    (∀ v, probe "neu" = some v →
      findNeutralinoCommand probe candidates = (some "neu", ["neu"])) ∧
    (probe "neu" = none →
      (findNeutralinoCommand probe candidates).1 =
        (candidates.find? (fun c => (probe c).isSome)).map normalizeCandidate) ∧
    (probe "neu" = none → (∀ c ∈ candidates, probe c = none) →
      (findNeutralinoCommand probe candidates).1 = none) := by
  refine ⟨?_, ?_, ?_⟩
  · intro v hv
    simp [findNeutralinoCommand, hv]
  · intro h
    simp [findNeutralinoCommand, h, scanCandidates_eq_find]
  · intro h hall
    have hfind : candidates.find? (fun c => (probe c).isSome) = none := by
      rw [List.find?_eq_none]
      intro c hc
      simp [hall c hc]
    simp [findNeutralinoCommand, h, scanCandidates_eq_find, hfind]

/-- Witness for `locator_first_candidate_wins`: a probe that only knows the
bare name short-circuits the scan. -/
theorem locator_first_candidate_wins_witness :
    findNeutralinoCommand
      (fun s => if s = "neu" then some "6.4.0" else none) ["a", "b"] =
      (some "neu", ["neu"]) :=
  (locator_first_candidate_wins
    (fun s => if s = "neu" then some "6.4.0" else none) ["a", "b"]).1
    "6.4.0" (by decide)

/-! ## Claim C8: version probe parsing -/

/-- C8: a probe attempt exiting 0 with output `"neu cli: 6.4.0\n"` parses
to version `"6.4.0"`; a probe exiting 0 with empty output parses to the
sentinel `"detected"`.  The labeled `<label>: <version>` pattern is tried
before the generic semantic-version fallback: an output carrying both
yields the labeled capture, and an output with only a bare semantic
version falls back to it. -/
theorem version_probe_parsing :
    getNeuVersion [⟨some 0, false, "neu cli: 6.4.0\n"⟩] = some "6.4.0" ∧
    getNeuVersion [⟨some 0, false, ""⟩] = some "detected" ∧
    parseNeuVersion "0.0.1 neu cli: 6.4.0" = "6.4.0" ∧
    parseNeuVersion "version 1.2.3" = "1.2.3" := by
  refine ⟨by decide, by decide, by decide, by decide⟩

/-! ## Claim C9: the empty-output build check -/

/-- C9 counterexample: in the `.js` entry point, a build that exits 0 while
the per-binary-name output directory exists but contains no files yields an
empty inventory, and the run still reports success — there is no
no-outputs check in web2app-cli.js (lines 609-633), contradicting the
claim for that entry point. -/
theorem build_no_outputs_js_success :
    listExecutables "web2app_build/webapp" "webapp" (some []) = ⟨[], []⟩ ∧
    buildOutcomeJs (listExecutables "web2app_build/webapp" "webapp" (some [])) =
      .ok () :=
  ⟨rfl, rfl⟩

/-- C9 (amended): when the build subcommand exits 0 but the inventory over
the per-binary-name output directory finds no executables and no archives,
the `.cjs` entry point fails with the no-outputs error instead of
reporting success; the `.js` entry point performs no such check and
reports success. -/
theorem build_no_outputs_check (buildDir binaryName : String)
    (entries : Option (List DirEntry))
    (hempty : listExecutables buildDir binaryName entries = ⟨[], []⟩) :
    buildOutcomeCjs (listExecutables buildDir binaryName entries) =
      .error "Neutralino build finished without outputs. Check the build logs above for errors." ∧
    buildOutcomeJs (listExecutables buildDir binaryName entries) = .ok () := by
  rw [hempty]
  exact ⟨rfl, rfl⟩

/-- Witness for `build_no_outputs_check` on a concrete empty output
directory. -/
theorem build_no_outputs_check_witness :
    buildOutcomeCjs (listExecutables "web2app_build/w" "w" (some [])) =
      .error "Neutralino build finished without outputs. Check the build logs above for errors." :=
  (build_no_outputs_check "web2app_build/w" "w" (some []) rfl).1

end Web2App
